import Mathlib

/-!
Verification development for the gas-price scraper (`scraper.py`).

The program is a linear fetch → parse → flatten → write pipeline:
* `get_national_prices` scans the root page's script tags (last to first)
  for a marker line and splits the captured payload into per-state rows;
* `get_state_prices` fetches each state's page, follows a data-script URL,
  captures an embedded JSON object and flattens it into county rows;
* `save_prices_to_csv` writes rows with Python's `csv.writer`
  (default dialect), and `main` orchestrates the run.

Strings are handled at the `List Char` level throughout, mirroring the
Python string operations (`str.strip`, `str.split`, `os.path.dirname`,
the two `re.search` patterns, and the `csv` reader/writer state machines).
Network and filesystem effects are made explicit: fetches are an
environment of functions returning `Except Unit` (an `error` models a
raised exception), and the filesystem is a record of directories and files.
-/

/-- Python `str.isspace` characters relevant to `str.strip` and `\s`. -/
def isPySpace (c : Char) : Bool :=
  c = ' ' || c = '\t' || c = '\n' || c = '\r' || c = '\x0b' || c = '\x0c'

/-- Python `str.strip()`: drop leading and trailing whitespace. -/
def pyStrip (cs : List Char) : List Char :=
  ((cs.dropWhile isPySpace).reverse.dropWhile isPySpace).reverse

/-- Python `str.split(sep)` for a one-character separator: splitting the
empty string yields `[""]`, and every separator occurrence opens a new
(possibly empty) segment. -/
def splitChar (sep : Char) : List Char → List (List Char)
  | [] => [[]]
  | c :: cs =>
    match splitChar sep cs with
    | [] => [[c]]
    | r :: rs => if c = sep then [] :: r :: rs else (c :: r) :: rs

/-- Python substring containment (`pat in s`). -/
def hasSubstr (pat : List Char) : List Char → Bool
  | [] => pat.isEmpty
  | s :: rest => pat.isPrefixOf (s :: rest) || hasSubstr pat rest

/-- Match a literal character sequence at the head, returning the rest. -/
def matchLit : List Char → List Char → Option (List Char)
  | [], rest => some rest
  | _ :: _, [] => none
  | p :: ps, c :: cs => if p = c then matchLit ps cs else none

/-- Regex `\s*`: greedily drop whitespace (safe here because the pattern
characters that follow `\s*` in both scraper regexes are never whitespace). -/
def dropSpaces (cs : List Char) : List Char := cs.dropWhile isPySpace

/-- Greedy `(.*)"`: the capture runs to the last `"` before a newline
(`.` does not match `\n`); fails when no closing quote exists. -/
def lastQuotePrefix (cs : List Char) : Option (List Char) :=
  let w := cs.takeWhile (fun c => ¬ c = '\n')
  if w.contains '"' then
    some (((w.reverse.dropWhile (fun c => ¬ c = '"')).drop 1).reverse)
  else none

/-- Attempt of `re.search(r'iwmparam\[0\].placestxt\s*=\s*"(.*)"', line)`
anchored at the current position: the literal `iwmparam[0]`, one arbitrary
non-newline character (the unescaped `.`), the literal `placestxt`,
`\s*=\s*"`, then the greedy quoted capture. -/
def matchPlacesAt (cs : List Char) : Option (List Char) :=
  match matchLit "iwmparam[0]".data cs with
  | none => none
  | some r1 =>
    match r1 with
    | [] => none
    | c :: r2 =>
      if c = '\n' then none
      else
        match matchLit "placestxt".data r2 with
        | none => none
        | some r3 =>
          match dropSpaces r3 with
          | '=' :: r4 =>
            match dropSpaces r4 with
            | '"' :: r5 => lastQuotePrefix r5
            | _ => none
          | _ => none

/-- `re.search` for the placestxt pattern: leftmost matching position. -/
def searchPlaces : List Char → Option (List Char)
  | [] => none
  | c :: rest =>
    match matchPlacesAt (c :: rest) with
    | some cap => some cap
    | none => searchPlaces rest

/-- The marker substring tested before the regex is applied. -/
def placesMarker : List Char := "iwmparam[0].placestxt".data

/-- Payload postprocessing from `get_national_prices`:
`match.group(1).strip().split(";")[:-1]`, then for each entry
`entry.strip().split(",")[:-1]`. -/
def parsePayload (cap : List Char) : List (List String) :=
  let raw := (splitChar ';' (pyStrip cap)).dropLast
  raw.map (fun entry =>
    ((splitChar ',' (pyStrip entry)).dropLast).map (fun f => String.mk f))

/-- One `line` of the inner loop of `get_national_prices`: `some` means the
function returns with this value, `none` means the loop continues. -/
def scanLine (l : List Char) : Option (List (List String)) :=
  if hasSubstr placesMarker l then
    match searchPlaces l with
    | some cap => some (parsePayload cap)
    | none => none
  else none

/-- The inner loop over a single script's text nodes. -/
def scanScript : List String → Option (List (List String))
  | [] => none
  | l :: rest =>
    match scanLine l.data with
    | some r => some r
    | none => scanScript rest

/-- The outer loop over scripts (already reversed). -/
def scanScripts : List (List String) → List (List String)
  | [] => []
  | s :: rest =>
    match scanScript s with
    | some r => r
    | none => scanScripts rest

/-- `get_national_prices(soup)`: a parsed document is its list of script
tags, each a list of text-node strings; the loop runs over
`reversed(script_tags)` and returns `[]` when nothing matches. -/
def get_national_prices (scripts : List (List String)) : List (List String)
  := scanScripts scripts.reverse

/-- Terminator test of the lazy capture: does `,\s*groups` match here? -/
def commaGroupsAt (cs : List Char) : Bool :=
  match cs with
  | ',' :: rest => "groups".data.isPrefixOf (dropSpaces rest)
  | _ => false

/-- Lazy `.*?` of the `map_data` pattern: extend the capture one
non-newline character at a time, stopping at the first position where the
`,\s*groups` terminator matches. -/
def lazyCG (acc : List Char) : List Char → Option (List Char)
  | [] => if commaGroupsAt [] then some acc.reverse else none
  | c :: rest =>
    if commaGroupsAt (c :: rest) then some acc.reverse
    else if c = '\n' then none
    else lazyCG (c :: acc) rest

/-- Attempt of `re.search(r"map_data\s*:\s*({.*?),\s*groups", line)`
anchored at the current position; the capture group includes the opening
brace. -/
def matchMapDataAt (cs : List Char) : Option (List Char) :=
  match matchLit "map_data".data cs with
  | none => none
  | some r1 =>
    match dropSpaces r1 with
    | ':' :: r2 =>
      match dropSpaces r2 with
      | '\x7b' :: r3 =>
        match lazyCG [] r3 with
        | none => none
        | some body => some ('\x7b' :: body)
      | _ => none
    | _ => none

/-- `re.search` for the `map_data` pattern: leftmost matching position. -/
def searchMapData : List Char → Option (List Char)
  | [] => none
  | c :: rest =>
    match matchMapDataAt (c :: rest) with
    | some cap => some cap
    | none => searchMapData rest

/-- The line scan of `get_state_prices`: the loop body checks
`"map_data" in line` and then the regex, breaking on the first line where
both succeed; when no line succeeds, `map_data` stays the empty dict. -/
def scanMapLines : List (List Char) → Option (List Char)
  | [] => none
  | l :: rest =>
    if hasSubstr "map_data".data l then
      match searchMapData l with
      | some cap => some cap
      | none => scanMapLines rest
    else scanMapLines rest

/-- `resp.text.strip().split("\n")`. -/
def dataLines (txt : String) : List (List Char) :=
  splitChar '\n' (pyStrip txt.data)

/-- A parsed county object: the fields of one value of the JSON mapping. -/
structure CountyObj where
  fields : List (String × String)
deriving Repr, DecidableEq

/-- Python `county.get(key, "")`. -/
def getField (o : CountyObj) (key : String) : String :=
  match o.fields.find? (fun p => p.1 = key) with
  | some p => p.2
  | none => ""

/-- The relevant content of a fetched state page: the `src` attribute of
`soup.find("script", src=re.compile(r"premiumhtml5map_js_data"))`, or
`none` when no such tag exists. -/
structure StateDoc where
  scriptSrc : Option String
deriving Repr, DecidableEq

/-- The effect environment of the state resolver.  `Except.error ()`
models a raised exception (transport error, non-parsable response);
`jsonParse` models `json.loads` restricted to the shape the scraper
consumes (a mapping whose values are flat string records, listed in
insertion order), with `none` modelling a raised `JSONDecodeError`. -/
structure Env where
  fetchState : String → Except Unit StateDoc
  fetchData : String → Except Unit String
  jsonParse : String → Option (List CountyObj)

/-- The body of the `for state_data in national_prices` loop of
`get_state_prices`, for one national row: the `len < 4` guard, the
`state_abbr, state_name, *_, state_url` destructuring, the `"DC"` skip,
the two fetches, the missing-script-tag skip, the `map_data` line scan
(empty dict when no line matches) and the county flattening.  The result
is the list of county rows this row contributes, or an error when an
exception propagates. -/
def stateRow (env : Env) (row : List String) : Except Unit (List (List String)) :=
  if row.length < 4 then Except.ok []
  else
    match row with
    | state_abbr :: state_name :: rest =>
      if state_abbr = "DC" then Except.ok []
      else
        match env.fetchState (rest.getLastD "") with
        | Except.error e => Except.error e
        | Except.ok doc =>
          match doc.scriptSrc with
          | none => Except.ok []
          | some data_url =>
            match env.fetchData data_url with
            | Except.error e => Except.error e
            | Except.ok txt =>
              match scanMapLines (dataLines txt) with
              | none => Except.ok []
              | some cap =>
                match env.jsonParse (String.mk (pyStrip cap)) with
                | none => Except.error ()
                | some counties =>
                  Except.ok (counties.map (fun c =>
                    [state_abbr, state_name, getField c "name", getField c "comment"]))
    | _ => Except.ok []

/-- `get_state_prices(national_prices)`: accumulate the county rows of
every national row in order; any raised exception aborts the whole run
and discards the accumulator. -/
def get_state_prices (env : Env) : List (List String) → Except Unit (List (List String))
  | [] => Except.ok []
  | row :: rest =>
    match stateRow env row with
    | Except.error e => Except.error e
    | Except.ok rs =>
      match get_state_prices env rest with
      | Except.error e => Except.error e
      | Except.ok more => Except.ok (rs ++ more)

/-- QUOTE_MINIMAL: a field is quoted iff it contains the delimiter, the
quote character, or a character of the line terminator `"\r\n"`. -/
def needsQuote (f : List Char) : Bool :=
  f.any (fun c => c = ',' || c = '"' || c = '\r' || c = '\n')

/-- Doubling of embedded quote characters (`doublequote=True`). -/
def escField (f : List Char) : List Char :=
  f.flatMap (fun c => if c = '"' then ['"', '"'] else [c])

/-- One encoded field of `csv.writer` (default dialect).  `single` is true
when this field is the only field of its row: a lone empty field is quoted
so that the row is distinguishable from a blank line. -/
def encodeField (single : Bool) (f : List Char) : List Char :=
  if needsQuote f || (single && f.isEmpty) then '"' :: (escField f ++ ['"'])
  else f

/-- One row of `csv.writer.writerows`: comma-joined encoded fields
followed by the default line terminator `"\r\n"`. -/
def encodeRow (row : List String) : List Char :=
  match row with
  | [] => ['\r', '\n']
  | f :: fs =>
    encodeField fs.isEmpty f.data ++
      ((fs.flatMap (fun g => ',' :: encodeField false g.data)) ++ ['\r', '\n'])

/-- The full text written by `csv.writer(file).writerows(data)`. -/
def writeRows (rows : List (List String)) : List Char :=
  rows.flatMap encodeRow

/-- Parse states of the CPython `csv` reader state machine. -/
inductive PState where
  | startRecord
  | startField
  | inField
  | inQuoted
  | quoteInQuoted
  | eatCrnl
deriving Repr, DecidableEq

/-- Running state of the `csv` reader: emitted rows, the fields of the
current row, the characters of the current field (reversed), and the
parse state. -/
structure RState where
  done : List (List String)
  row : List String
  field : List Char
  st : PState
deriving Repr, DecidableEq

/-- Close the current field. -/
def endField (s : RState) : RState :=
  { s with row := s.row ++ [String.mk s.field.reverse], field := [] }

/-- Emit the current row. -/
def emitRow (s : RState) : RState :=
  { s with done := s.done ++ [s.row], row := [] }

/-- The START_FIELD transition (also reached by fallthrough from
START_RECORD on a non-EOL character). -/
def csvStartField (s : RState) (c : Char) : RState :=
  if c = '\r' || c = '\n' then { emitRow (endField s) with st := .eatCrnl }
  else if c = '"' then { s with st := .inQuoted }
  else if c = ',' then { endField s with st := .startField }
  else { s with field := c :: s.field, st := .inField }

/-- One character of the CPython `csv` reader (default dialect:
`doublequote=True`, no escape character, non-strict).  A blank line is
returned as an empty row, matching `csv.reader`. -/
def csvStep (s : RState) (c : Char) : RState :=
  match s.st with
  | .startRecord =>
    if c = '\r' || c = '\n' then { emitRow s with st := .eatCrnl }
    else csvStartField s c
  | .startField => csvStartField s c
  | .inField =>
    if c = '\r' || c = '\n' then { emitRow (endField s) with st := .eatCrnl }
    else if c = ',' then { endField s with st := .startField }
    else { s with field := c :: s.field }
  | .inQuoted =>
    if c = '"' then { s with st := .quoteInQuoted }
    else { s with field := c :: s.field }
  | .quoteInQuoted =>
    if c = '"' then { s with field := c :: s.field, st := .inQuoted }
    else if c = ',' then { endField s with st := .startField }
    else if c = '\r' || c = '\n' then { emitRow (endField s) with st := .eatCrnl }
    else { s with field := c :: s.field, st := .inField }
  | .eatCrnl =>
    if c = '\n' then { s with st := .startRecord }
    else if c = '\r' then s
    else csvStartField { s with st := .startRecord } c

/-- End of input: a pending row is emitted (CPython raises on end of data
inside a quoted field; the writer never produces that shape). -/
def csvFinish (s : RState) : List (List String) :=
  match s.st with
  | .startRecord => s.done
  | .eatCrnl => s.done
  | _ => (emitRow (endField s)).done

/-- The rows read back by `csv.reader` from a complete text. -/
def readRows (input : List Char) : List (List String) :=
  csvFinish (input.foldl csvStep ⟨[], [], [], .startRecord⟩)

/-- Reader invariant after consuming one encoded field: the machine holds
the decoded field `f` either mid-field, or just after a closing quote, or
(for an empty unquoted field) still at the start of a field. -/
def AfterField (d : List (List String)) (r : List String) (f : String)
    (s : RState) : Prop :=
  s = ⟨d, r, f.data.reverse, .inField⟩ ∨
  s = ⟨d, r, f.data.reverse, .quoteInQuoted⟩ ∨
  (f = "" ∧ s = ⟨d, r, [], .startField⟩)

/-- A filesystem: the set of existing directories and the written files.
`os.makedirs` also creates missing ancestors; ancestors are not tracked
because nothing here looks them up. -/
structure FS where
  dirs : List String
  files : List (String × String)
deriving Repr, DecidableEq

/-- POSIX `os.path.dirname`: everything up to the last `/`, with trailing
slashes stripped unless the head consists only of slashes. -/
def dirnameChars (p : List Char) : List Char :=
  let pre := p.reverse.dropWhile (fun c => ¬ c = '/')
  if pre.any (fun c => ¬ c = '/') then (pre.dropWhile (fun c => c = '/')).reverse
  else pre.reverse

/-- String wrapper of `dirnameChars`. -/
def dirname (p : String) : String := String.mk (dirnameChars p.data)

/-- `save_prices_to_csv(filename, data)`: `open(filename, "w")` followed by
`csv.writer(file).writerows(data)`.  Opening for writing creates or
truncates the file but requires the parent directory to exist; a missing
parent raises (`none`). -/
def save_prices_to_csv (fs : FS) (filename : String) (data : List (List String)) :
    Option FS :=
  if fs.dirs.contains (dirname filename) then
    some { fs with files := (filename, String.mk (writeRows data)) :: fs.files }
  else none

/-- `os.makedirs(d, exist_ok=True)`. -/
def makedirs (fs : FS) (d : String) : FS :=
  { fs with dirs := d :: fs.dirs }

/-- The effect environment of `main`: the root-page fetch yields the
script tags of the parsed document (or raises), and the state resolver
uses its own environment. -/
structure MainEnv where
  fetchRoot : Except Unit (List (List String))
  stateEnv : Env

/-- `main()` after argument parsing: fetch the root page, extract national
prices, resolve state prices, create the two output directories, then
write both CSV files.  The pair is the resulting filesystem and whether
the run completed (`Except.error ()` models an uncaught exception
terminating the process). -/
def main_model (menv : MainEnv) (base ts : String) (fs : FS) :
    FS × Except Unit Unit :=
  match menv.fetchRoot with
  | Except.error _ => (fs, Except.error ())
  | Except.ok rootScripts =>
    let national := get_national_prices rootScripts
    match get_state_prices menv.stateEnv national with
    | Except.error _ => (fs, Except.error ())
    | Except.ok statePrices =>
      let national_path := base ++ "/national/"
      let state_path := base ++ "/states/"
      let fs1 := makedirs fs (dirname national_path)
      let fs2 := makedirs fs1 (dirname state_path)
      match save_prices_to_csv fs2 (national_path ++ "/" ++ ts ++ ".csv") national with
      | none => (fs2, Except.error ())
      | some fs3 =>
        match save_prices_to_csv fs3 (state_path ++ "/" ++ ts ++ ".csv") statePrices with
        | none => (fs3, Except.error ())
        | some fs4 => (fs4, Except.ok ())

/-- National row fixture: Alabama. -/
def alRow : List String := ["AL", "Alabama", "3.10", "http://x/al"]

/-- National row fixture: Alaska. -/
def akRow : List String := ["AK", "Alaska", "3.50", "http://x/ak"]

/-- National row fixture: Illinois. -/
def ilRow : List String := ["IL", "Illinois", "3.20", "http://x/il"]

/-- National row fixture: the skipped District of Columbia. -/
def dcRow : List String := ["DC", "District of Columbia", "3.40", "http://x/dc"]

/-- Data-script fixture for Alabama: one county with name and comment. -/
def alData : String :=
  "map_data : \x7b\"1\": \x7b\"name\": \"Autauga\", \"comment\": \"3.1\"\x7d\x7d, groups : null"

/-- The capture the `map_data` regex takes from `alData`. -/
def alCap : String :=
  "\x7b\"1\": \x7b\"name\": \"Autauga\", \"comment\": \"3.1\"\x7d\x7d"

/-- Data-script fixture for Alaska: one county with no comment field. -/
def akData : String :=
  "map_data : \x7b\"1\": \x7b\"name\": \"Anchorage\"\x7d\x7d, groups : null"

/-- The capture the `map_data` regex takes from `akData`. -/
def akCap : String :=
  "\x7b\"1\": \x7b\"name\": \"Anchorage\"\x7d\x7d"

/-- Data-script fixture for Illinois: the two-county mapping of the spec's
flattening example. -/
def ilData : String :=
  "map_data : \x7b\"1\": \x7b\"name\": \"Cook\", \"comment\": \"high\"\x7d, \"2\": \x7b\"name\": \"Lake\"\x7d\x7d, groups : null"

/-- The capture the `map_data` regex takes from `ilData`. -/
def ilCap : String :=
  "\x7b\"1\": \x7b\"name\": \"Cook\", \"comment\": \"high\"\x7d, \"2\": \x7b\"name\": \"Lake\"\x7d\x7d"

/-- Environment in which the three fixture states resolve normally and
every other URL raises a transport error. -/
def envOk : Env where
  fetchState := fun u =>
    if u = "http://x/al" then Except.ok ⟨some "http://x/al/d.js"⟩
    else if u = "http://x/ak" then Except.ok ⟨some "http://x/ak/d.js"⟩
    else if u = "http://x/il" then Except.ok ⟨some "http://x/il/d.js"⟩
    else Except.error ()
  fetchData := fun u =>
    if u = "http://x/al/d.js" then Except.ok alData
    else if u = "http://x/ak/d.js" then Except.ok akData
    else if u = "http://x/il/d.js" then Except.ok ilData
    else Except.error ()
  jsonParse := fun s =>
    if s = alCap then some [⟨[("name", "Autauga"), ("comment", "3.1")]⟩]
    else if s = akCap then some [⟨[("name", "Anchorage")]⟩]
    else if s = ilCap then
      some [⟨[("name", "Cook"), ("comment", "high")]⟩, ⟨[("name", "Lake")]⟩]
    else none

/-- Environment in which every fetch raises and every parse fails. -/
def envErr : Env where
  fetchState := fun _ => Except.error ()
  fetchData := fun _ => Except.error ()
  jsonParse := fun _ => none

/-- Like `envOk` except Alabama's data script has no `map_data` line. -/
def envNoCap : Env :=
  { envOk with
    fetchData := fun u =>
      if u = "http://x/al/d.js" then Except.ok "var a = 1;"
      else envOk.fetchData u }

/-- Like `envOk` except every JSON parse raises. -/
def envJsonBad : Env :=
  { envOk with jsonParse := fun _ => none }

/-- A `main` environment whose root fetch raises. -/
def menvErr : MainEnv where
  fetchRoot := Except.error ()
  stateEnv := envErr

/-- The empty filesystem. -/
def fs0 : FS := ⟨[], []⟩

/-- Root-page script line of the spec's national split example. -/
def exLine : String :=
  "iwmparam[0].placestxt = \"AL,Alabama,3.10,http://x/al;AK,Alaska,3.50,http://x/ak;\""

/-- A line containing the marker whose regex match fails (no quoted
payload). -/
def badLine : String := "iwmparam[0].placestxt = no quotes"

/-- A marker line whose payload is empty. -/
def emptyPayloadLine : String := "iwmparam[0].placestxt = \"\""

theorem splitChar_ne_nil (sep : Char) (l : List Char) :
    splitChar sep l ≠ [] := by
  cases l with
  | nil => simp [splitChar]
  | cons c cs =>
    simp only [splitChar]
    cases h : splitChar sep cs with
    | nil => simp
    | cons r rs =>
      by_cases hc : c = sep <;> simp [hc]

theorem splitChar_concat_sep (sep : Char) (u : List Char) :
    splitChar sep (u ++ [sep]) = splitChar sep u ++ [[]] := by
  induction u with
  | nil => simp [splitChar]
  | cons c cs ih =>
    cases h : splitChar sep cs with
    | nil => exact absurd h (splitChar_ne_nil sep cs)
    | cons r rs =>
      rw [List.cons_append]
      simp only [splitChar, ih, h]
      by_cases hc : c = sep <;> simp [hc]

/-- C1: on the synthetic root-page payload
`"AL,Alabama,3.10,http://x/al;AK,Alaska,3.50,http://x/ak;"` embedded in a
marker line, the national extractor returns exactly
`[["AL","Alabama","3.10"], ["AK","Alaska","3.50"]]`; and in general, for a
captured payload whose stripped form ends in `;`, the extractor splits on
`;`, drops exactly the trailing empty segment, then splits each remaining
segment on `,` and drops its final field. -/
theorem national_split_property :
    get_national_prices [[exLine]] =
      [["AL", "Alabama", "3.10"], ["AK", "Alaska", "3.50"]] ∧
    ∀ (p u : List Char), pyStrip p = u ++ [';'] →
      parsePayload p =
        (splitChar ';' u).map (fun e =>
          ((splitChar ',' (pyStrip e)).dropLast).map (fun f => String.mk f)) := by
  refine ⟨rfl, fun p u h => ?_⟩
  simp [parsePayload, h, splitChar_concat_sep]

/-- Witness for the general clause of `national_split_property` at a
concrete payload. -/
theorem national_split_property_witness :
    pyStrip "a,b,x;".data = "a,b,x".data ++ [';'] ∧
    parsePayload "a,b,x;".data = [["a", "b"]] := by
  refine ⟨rfl, ?_⟩
  rw [national_split_property.2 "a,b,x;".data "a,b,x".data rfl]
  rfl

theorem scanScript_eq_none (s : List String)
    (h : ∀ l ∈ s, scanLine l.data = none) : scanScript s = none := by
  induction s with
  | nil => rfl
  | cons l ls ih =>
    have h1 : scanLine l.data = none := h l (List.mem_cons_self l ls)
    simp only [scanScript, h1]
    exact ih fun x hx => h x (List.mem_cons_of_mem l hx)

theorem scanScripts_eq_nil (ss : List (List String))
    (h : ∀ s ∈ ss, scanScript s = none) : scanScripts ss = [] := by
  induction ss with
  | nil => rfl
  | cons s rest ih =>
    have h1 : scanScript s = none := h s (List.mem_cons_self s rest)
    simp only [scanScripts, h1]
    exact ih fun x hx => h x (List.mem_cons_of_mem s hx)

/-- C10 counterexample: a script line that contains the marker and matches
the regex with an empty payload makes the extractor return `[]`, so `[]`
is not returned only on match failure. -/
theorem national_empty_match_counterexample :
    scanLine emptyPayloadLine.data = some [] ∧
    get_national_prices [[emptyPayloadLine]] = [] := ⟨rfl, rfl⟩

/-- C10 amended: a line failing the marker-plus-regex test never ends the
search (the scan continues with the remaining lines and with earlier
scripts, still in reverse document order), and `[]` is returned whenever
no line of any script both contains the marker and matches the regex; a
matching line with an empty payload, however, also yields `[]`. -/
theorem national_scan_continues :
    (∀ (l : String) (ls : List String), scanLine l.data = none →
      scanScript (l :: ls) = scanScript ls) ∧
    (∀ (s : List String) (rest : List (List String)), scanScript s = none →
      get_national_prices (rest ++ [s]) = get_national_prices rest) ∧
    (∀ scripts : List (List String),
      (∀ s ∈ scripts, ∀ l ∈ s, scanLine l.data = none) →
      get_national_prices scripts = []) := by
  refine ⟨fun l ls h => ?_, fun s rest h => ?_, fun scripts h => ?_⟩
  · simp only [scanScript, h]
  · simp [get_national_prices, scanScripts, h]
  · unfold get_national_prices
    exact scanScripts_eq_nil scripts.reverse fun s hs =>
      scanScript_eq_none s (h s (List.mem_reverse.mp hs))

/-- Witness for `national_scan_continues`: a line containing the marker
but no quoted payload is skipped, and a script with no matching line
yields `[]`. -/
theorem national_scan_continues_witness :
    scanScript [badLine, exLine] = scanScript [exLine] ∧
    get_national_prices [[badLine]] = [] := by
  constructor
  · exact national_scan_continues.1 badLine [exLine] rfl
  · refine national_scan_continues.2.2 [[badLine]] ?_
    intro s hs l hl
    simp only [List.mem_singleton] at hs
    subst hs
    simp only [List.mem_singleton] at hl
    subst hl
    rfl

/-- C5: a national row whose first field is `"DC"` contributes no county
rows and its URL is never fetched — the conclusion holds for every
environment, including one in which every fetch raises. -/
theorem dc_exclusion (env : Env) (row : List String)
    (h : row.head? = some "DC") :
    stateRow env row = Except.ok [] ∧
    ∀ rest, get_state_prices env (row :: rest) = get_state_prices env rest := by
  obtain ⟨tl, rfl⟩ : ∃ tl, row = "DC" :: tl := by
    cases row with
    | nil => simp at h
    | cons a tl =>
      simp only [List.head?_cons, Option.some.injEq] at h
      exact ⟨tl, by rw [h]⟩
  have h1 : stateRow env ("DC" :: tl) = Except.ok [] := by
    cases tl with
    | nil => rfl
    | cons b tl2 =>
      unfold stateRow
      split
      · rfl
      · rfl
  refine ⟨h1, fun rest => ?_⟩
  cases hg : get_state_prices env rest with
  | error e => simp [get_state_prices, h1, hg]
  | ok more => simp [get_state_prices, h1, hg]

/-- Witness for `dc_exclusion` in an environment in which every fetch
raises a transport error: the DC row still produces no rows and no
error. -/
theorem dc_exclusion_witness :
    stateRow envErr dcRow = Except.ok [] ∧
    get_state_prices envErr [dcRow] = get_state_prices envErr [] := by
  have h := dc_exclusion envErr dcRow rfl
  exact ⟨h.1, h.2 []⟩

/-- C7: a national row with fewer than 4 fields is skipped by the state
resolver without error — no fetch and no destructuring happens for it —
and the remaining rows are still processed. -/
theorem short_row_skip (env : Env) (row : List String) (h : row.length < 4) :
    stateRow env row = Except.ok [] ∧
    ∀ rest, get_state_prices env (row :: rest) = get_state_prices env rest := by
  have h1 : stateRow env row = Except.ok [] := by
    unfold stateRow
    rw [if_pos h]
  refine ⟨h1, fun rest => ?_⟩
  cases hg : get_state_prices env rest with
  | error e => simp [get_state_prices, h1, hg]
  | ok more => simp [get_state_prices, h1, hg]

/-- Witness for `short_row_skip`: a 3-field row is skipped without error
even though every fetch in the environment would raise. -/
theorem short_row_skip_witness :
    stateRow envErr ["AL", "Alabama", "3.10"] = Except.ok [] ∧
    get_state_prices envErr [["AL", "Alabama", "3.10"]] = Except.ok [] := by
  have h := short_row_skip envErr ["AL", "Alabama", "3.10"] (by decide)
  exact ⟨h.1, (h.2 []).trans rfl⟩

/-- C2 counterexample: Alabama's data script contains no line matching the
`map_data` capture, yet the run does not raise — `map_data` stays the
empty dict, the state contributes no rows, and the next state (Alaska) is
still processed. -/
theorem state_capture_miss_counterexample :
    get_state_prices envNoCap [alRow, akRow] =
      Except.ok [["AK", "Alaska", "Anchorage", ""]] ∧
    ¬ get_state_prices envNoCap [alRow, akRow] = Except.error () := by
  have h1 : get_state_prices envNoCap [alRow, akRow] =
      Except.ok [["AK", "Alaska", "Anchorage", ""]] := rfl
  refine ⟨h1, fun hc => ?_⟩
  rw [h1] at hc
  exact Except.noConfusion hc

/-- C2 amended: when no line of a state's data script matches the
embedded-JSON capture, the resolver continues with that state producing no
county rows (the `map_data` dict stays empty); only a successful capture
whose JSON parse raises makes the run abort. -/
theorem state_capture_miss_amended :
    ∀ (env : Env) (a b p u du txt : String),
      ¬ a = "DC" →
      env.fetchState u = Except.ok ⟨some du⟩ →
      env.fetchData du = Except.ok txt →
      ((scanMapLines (dataLines txt) = none →
        stateRow env [a, b, p, u] = Except.ok [] ∧
        ∀ rest, get_state_prices env ([a, b, p, u] :: rest) =
          get_state_prices env rest) ∧
      (∀ cap, scanMapLines (dataLines txt) = some cap →
        env.jsonParse (String.mk (pyStrip cap)) = none →
        stateRow env [a, b, p, u] = Except.error ())) := by
  intro env a b p u du txt ha hfs hfd
  constructor
  · intro hscan
    have h1 : stateRow env [a, b, p, u] = Except.ok [] := by
      simp [stateRow, ha, hfs, hfd, hscan]
    refine ⟨h1, fun rest => ?_⟩
    cases hg : get_state_prices env rest with
    | error e => simp [get_state_prices, h1, hg]
    | ok more => simp [get_state_prices, h1, hg]
  · intro cap hscan hjson
    simp [stateRow, ha, hfs, hfd, hscan, hjson]

/-- Witness for `state_capture_miss_amended`: Alabama with a capture-less
data script yields no rows and no error; Alabama with a well-captured but
unparsable JSON raises. -/
theorem state_capture_miss_amended_witness :
    stateRow envNoCap alRow = Except.ok [] ∧
    stateRow envJsonBad alRow = Except.error () := by
  constructor
  · exact ((state_capture_miss_amended envNoCap "AL" "Alabama" "3.10"
      "http://x/al" "http://x/al/d.js" "var a = 1;"
      (by decide) rfl rfl).1 rfl).1
  · exact (state_capture_miss_amended envJsonBad "AL" "Alabama" "3.10"
      "http://x/al" "http://x/al/d.js" alData
      (by decide) rfl rfl).2 alCap.data rfl rfl

/-- C6: when a state's mapping parses to a list of county objects, the
resolver emits one row `[abbr, name, name-or-empty, comment-or-empty]` per
mapping value, and a missing field defaults to the empty string. -/
theorem county_flattening :
    (∀ (env : Env) (a b p u du txt : String) (cap : List Char)
      (counties : List CountyObj),
      ¬ a = "DC" →
      env.fetchState u = Except.ok ⟨some du⟩ →
      env.fetchData du = Except.ok txt →
      scanMapLines (dataLines txt) = some cap →
      env.jsonParse (String.mk (pyStrip cap)) = some counties →
      stateRow env [a, b, p, u] =
        Except.ok (counties.map (fun c =>
          [a, b, getField c "name", getField c "comment"]))) ∧
    (∀ (c : CountyObj) (k : String),
      c.fields.find? (fun q => q.1 = k) = none → getField c k = "") := by
  constructor
  · intro env a b p u du txt cap counties ha hfs hfd hscan hjson
    simp [stateRow, ha, hfs, hfd, hscan, hjson]
  · intro c k h
    simp [getField, h]

/-- Witness for `county_flattening`: the spec's Illinois example with the
mapping values Cook (with comment) and Lake (without). -/
theorem county_flattening_witness :
    stateRow envOk ilRow =
      Except.ok [["IL", "Illinois", "Cook", "high"],
        ["IL", "Illinois", "Lake", ""]] := by
  have h := county_flattening.1 envOk "IL" "Illinois" "3.20" "http://x/il"
    "http://x/il/d.js" ilData ilCap.data
    [⟨[("name", "Cook"), ("comment", "high")]⟩, ⟨[("name", "Lake")]⟩]
    (by decide) rfl rfl rfl rfl
  exact h.trans rfl

/-- C3 counterexample: writing to a path whose parent directory does not
exist fails instead of creating the directory. -/
theorem writer_no_mkdir_counterexample :
    save_prices_to_csv fs0 "a/b.csv" [["x"]] = none := rfl

/-- C3 amended: `save_prices_to_csv` does not create parent directories —
it fails when the target's parent is missing and never adds a directory;
the orchestrator (`main`) creates the output directories with
`os.makedirs` before the writes. -/
theorem writer_requires_parent :
    ∀ (fs : FS) (p : String) (rows : List (List String)),
      (fs.dirs.contains (dirname p) = false →
        save_prices_to_csv fs p rows = none) ∧
      (∀ fs2, save_prices_to_csv fs p rows = some fs2 → fs2.dirs = fs.dirs) := by
  intro fs p rows
  constructor
  · intro h
    have h2 : ¬ dirname p ∈ fs.dirs := by simpa using h
    simp [save_prices_to_csv, h2]
  · intro fs2 h
    unfold save_prices_to_csv at h
    split at h
    · injection h with h2
      rw [← h2]
    · exact Option.noConfusion h

/-- Witness for `writer_requires_parent` at concrete filesystems: a write
under a missing parent fails, and a successful write leaves the directory
set unchanged. -/
theorem writer_requires_parent_witness :
    save_prices_to_csv ⟨["d"], []⟩ "a/b.csv" [["x"]] = none ∧
    (⟨["a"], [("a/b.csv", String.mk (writeRows [["x"]]))]⟩ : FS).dirs =
      (⟨["a"], []⟩ : FS).dirs := by
  constructor
  · exact (writer_requires_parent ⟨["d"], []⟩ "a/b.csv" [["x"]]).1 rfl
  · exact (writer_requires_parent ⟨["a"], []⟩ "a/b.csv" [["x"]]).2
      ⟨["a"], [("a/b.csv", String.mk (writeRows [["x"]]))]⟩ rfl

/-- C4: both CSV writes happen only after all fetching and parsing; if the
run aborts during the root fetch or during state resolution, the
filesystem — in particular both output files of the run's timestamp — is
untouched. -/
theorem no_partial_output (menv : MainEnv) (base ts : String) (fs : FS)
    (h : menv.fetchRoot = Except.error () ∨
      ∃ scripts, menv.fetchRoot = Except.ok scripts ∧
        get_state_prices menv.stateEnv (get_national_prices scripts) =
          Except.error ()) :
    main_model menv base ts fs = (fs, Except.error ()) := by
  rcases h with h | ⟨scripts, h1, h2⟩
  · simp [main_model, h]
  · simp [main_model, h1, h2]

/-- Witness for `no_partial_output`: a failing root fetch leaves the empty
filesystem empty. -/
theorem no_partial_output_witness :
    main_model menvErr "prices" "t" fs0 = (fs0, Except.error ()) :=
  no_partial_output menvErr "prices" "t" fs0 (Or.inl rfl)

theorem stateRow_shape (env : Env) (row : List String)
    (rs : List (List String)) (h : stateRow env row = Except.ok rs) :
    ∀ r ∈ rs, r.length = 4 ∧ r.take 2 = row.take 2 := by
  unfold stateRow at h
  split at h
  · injection h with h2
    subst h2
    intro r hr
    simp at hr
  · split at h
    · split at h
      · injection h with h2
        subst h2
        intro r hr
        simp at hr
      · split at h
        · exact Except.noConfusion h
        · split at h
          · injection h with h2
            subst h2
            intro r hr
            simp at hr
          · split at h
            · exact Except.noConfusion h
            · split at h
              · injection h with h2
                subst h2
                intro r hr
                simp at hr
              · split at h
                · exact Except.noConfusion h
                · injection h with h2
                  subst h2
                  intro r hr
                  simp only [List.mem_map] at hr
                  obtain ⟨c, _, rfl⟩ := hr
                  exact ⟨rfl, rfl⟩
    · injection h with h2
      subst h2
      intro r hr
      simp at hr

/-- C9: every row emitted by the state resolver has exactly 4 fields whose
first two equal the first two fields of the national row it came from, and
the output is the in-order concatenation of one block per national row. -/
theorem state_rows_shape (env : Env) (national : List (List String))
    (out : List (List String))
    (h : get_state_prices env national = Except.ok out) :
    ∃ blocks : List (List (List String)),
      out = blocks.flatten ∧
      List.Forall₂ (fun (row : List String) (block : List (List String)) =>
        ∀ r ∈ block, r.length = 4 ∧ r.take 2 = row.take 2) national blocks := by
  induction national generalizing out with
  | nil =>
    simp only [get_state_prices] at h
    injection h with h2
    subst h2
    exact ⟨[], rfl, List.Forall₂.nil⟩
  | cons row rest ih =>
    simp only [get_state_prices] at h
    cases h1 : stateRow env row with
    | error e =>
      rw [h1] at h
      exact Except.noConfusion h
    | ok rs =>
      rw [h1] at h
      cases h2 : get_state_prices env rest with
      | error e =>
        rw [h2] at h
        exact Except.noConfusion h
      | ok more =>
        rw [h2] at h
        injection h with h3
        obtain ⟨blocks, hb1, hb2⟩ := ih more h2
        refine ⟨rs :: blocks, ?_, ?_⟩
        · rw [← h3, hb1, List.flatten_cons]
        · exact List.Forall₂.cons (stateRow_shape env row rs h1) hb2

theorem string_mk_data (s : String) : String.mk s.data = s := rfl

theorem csv_quoted_fold (cs : List Char) (d : List (List String))
    (r : List String) (acc : List Char) :
    List.foldl csvStep ⟨d, r, acc, .inQuoted⟩ (escField cs) =
      ⟨d, r, cs.reverse ++ acc, .inQuoted⟩ := by
  induction cs generalizing acc with
  | nil => simp [escField]
  | cons c cs ih =>
    by_cases hc : c = '"'
    · subst hc
      have hesc : escField ('"' :: cs) = '"' :: '"' :: escField cs := by
        simp [escField]
      rw [hesc, List.foldl_cons, List.foldl_cons]
      have s1 : csvStep ⟨d, r, acc, .inQuoted⟩ '"' =
          ⟨d, r, acc, .quoteInQuoted⟩ := by
        simp [csvStep]
      have s2 : csvStep ⟨d, r, acc, .quoteInQuoted⟩ '"' =
          ⟨d, r, '"' :: acc, .inQuoted⟩ := by
        simp [csvStep]
      rw [s1, s2, ih]
      simp
    · have hesc : escField (c :: cs) = c :: escField cs := by
        simp [escField, hc]
      rw [hesc, List.foldl_cons]
      have s1 : csvStep ⟨d, r, acc, .inQuoted⟩ c = ⟨d, r, c :: acc, .inQuoted⟩ := by
        simp [csvStep, hc]
      rw [s1, ih]
      simp

theorem csv_plain_fold (cs : List Char) (d : List (List String))
    (r : List String) (acc : List Char)
    (h : ∀ x ∈ cs, (x = ',' || x = '"' || x = '\r' || x = '\n') = false) :
    List.foldl csvStep ⟨d, r, acc, .inField⟩ cs =
      ⟨d, r, cs.reverse ++ acc, .inField⟩ := by
  induction cs generalizing acc with
  | nil => simp
  | cons c cs ih =>
    have hc := h c (List.mem_cons_self c cs)
    simp only [Bool.or_eq_false_iff, decide_eq_false_iff_not] at hc
    rw [List.foldl_cons]
    have s1 : csvStep ⟨d, r, acc, .inField⟩ c = ⟨d, r, c :: acc, .inField⟩ := by
      simp [csvStep, hc.1.1.1, hc.1.1.2, hc.1.2, hc.2]
    rw [s1, ih _ (fun x hx => h x (List.mem_cons_of_mem c hx))]
    simp

theorem csv_field_fold (cs : List Char) (single : Bool) (d : List (List String))
    (r : List String) :
    AfterField d r (String.mk cs)
      (List.foldl csvStep ⟨d, r, [], .startField⟩ (encodeField single cs)) := by
  unfold AfterField
  cases hqb : (needsQuote cs || (single && cs.isEmpty)) with
  | true =>
    rw [encodeField, if_pos hqb, List.foldl_cons]
    have s1 : csvStep ⟨d, r, [], .startField⟩ '"' = ⟨d, r, [], .inQuoted⟩ := by
      simp [csvStep, csvStartField]
    rw [s1, List.foldl_append, csv_quoted_fold]
    refine Or.inr (Or.inl ?_)
    simp [csvStep]
  | false =>
    rw [encodeField, if_neg (by simp [hqb])]
    cases cs with
    | nil => exact Or.inr (Or.inr ⟨rfl, by simp⟩)
    | cons c cs2 =>
      have hnq : needsQuote (c :: cs2) = false := (Bool.or_eq_false_iff.mp hqb).1
      have hall : ∀ x ∈ c :: cs2,
          (x = ',' || x = '"' || x = '\r' || x = '\n') = false := by
        intro x hx
        cases hb : (x = ',' || x = '"' || x = '\r' || x = '\n') with
        | false => rfl
        | true =>
          exfalso
          have ht : needsQuote (c :: cs2) = true := by
            rw [needsQuote, List.any_eq_true]
            exact ⟨x, hx, hb⟩
          rw [ht] at hnq
          exact Bool.noConfusion hnq
      have hc := hall c (List.mem_cons_self c cs2)
      simp only [Bool.or_eq_false_iff, decide_eq_false_iff_not] at hc
      have s1 : csvStep ⟨d, r, [], .startField⟩ c = ⟨d, r, [c], .inField⟩ := by
        simp [csvStep, csvStartField, hc.1.1.1, hc.1.1.2, hc.1.2, hc.2]
      rw [List.foldl_cons, s1,
        csv_plain_fold cs2 d r [c] (fun x hx => hall x (List.mem_cons_of_mem c hx))]
      refine Or.inl ?_
      simp

theorem csvStartField_st (d : List (List String)) (r : List String)
    (f : List Char) (s1 s2 : PState) (c : Char) :
    csvStartField ⟨d, r, f, s1⟩ c = csvStartField ⟨d, r, f, s2⟩ c := by
  unfold csvStartField
  split_ifs <;> rfl

theorem csv_step_start_eq (d : List (List String)) (c : Char)
    (hc : (c = '\r' || c = '\n') = false) :
    csvStep ⟨d, [], [], .startRecord⟩ c = csvStep ⟨d, [], [], .startField⟩ c := by
  simp only [csvStep]
  rw [if_neg (by simp [hc])]
  exact csvStartField_st d [] [] .startRecord .startField c

theorem csv_field_fold_start (cs : List Char) (single : Bool)
    (d : List (List String)) :
    AfterField d [] (String.mk cs)
      (List.foldl csvStep ⟨d, [], [], .startRecord⟩ (encodeField single cs)) ∨
    (cs = [] ∧ (needsQuote cs || (single && cs.isEmpty)) = false ∧
      List.foldl csvStep ⟨d, [], [], .startRecord⟩ (encodeField single cs) =
        ⟨d, [], [], .startRecord⟩) := by
  cases hqb : (needsQuote cs || (single && cs.isEmpty)) with
  | true =>
    left
    have he : encodeField single cs = '"' :: (escField cs ++ ['"']) := by
      rw [encodeField, if_pos hqb]
    have h2 := csv_field_fold cs single d []
    rw [he, List.foldl_cons] at h2 ⊢
    rw [csv_step_start_eq d '"' (by decide)]
    exact h2
  | false =>
    cases cs with
    | nil =>
      right
      have hs : single = false := by simpa [needsQuote] using hqb
      subst hs
      exact ⟨rfl, rfl, rfl⟩
    | cons c cs2 =>
      left
      have hnq : needsQuote (c :: cs2) = false := (Bool.or_eq_false_iff.mp hqb).1
      have hcp : (c = ',' || c = '"' || c = '\r' || c = '\n') = false := by
        cases hb : (c = ',' || c = '"' || c = '\r' || c = '\n') with
        | false => rfl
        | true =>
          exfalso
          have ht : needsQuote (c :: cs2) = true := by
            rw [needsQuote, List.any_eq_true]
            exact ⟨c, List.mem_cons_self c cs2, hb⟩
          rw [ht] at hnq
          exact Bool.noConfusion hnq
      simp only [Bool.or_eq_false_iff, decide_eq_false_iff_not] at hcp
      have he : encodeField single (c :: cs2) = c :: cs2 := by
        rw [encodeField, if_neg (by simp [hnq])]
      have h2 := csv_field_fold (c :: cs2) single d []
      rw [he, List.foldl_cons] at h2 ⊢
      rw [csv_step_start_eq d c (by simp [hcp.1.2, hcp.2])]
      exact h2

theorem csv_sep_fold (d : List (List String)) (r : List String) (f : String)
    (s : RState) (h : AfterField d r f s) :
    csvStep s ',' = ⟨d, r ++ [f], [], .startField⟩ := by
  rcases h with h | h | ⟨hf, h⟩
  · subst h
    simp [csvStep, endField, string_mk_data]
  · subst h
    simp [csvStep, endField, string_mk_data]
  · subst h
    subst hf
    simp [csvStep, csvStartField, endField]

theorem csv_startRecord_sep (d : List (List String)) :
    csvStep ⟨d, [], [], .startRecord⟩ ',' = ⟨d, [""], [], .startField⟩ := by
  simp [csvStep, csvStartField, endField]

theorem csv_term_fold (d : List (List String)) (r : List String) (f : String)
    (s : RState) (h : AfterField d r f s) :
    List.foldl csvStep s ['\r', '\n'] =
      ⟨d ++ [r ++ [f]], [], [], .startRecord⟩ := by
  rcases h with h | h | ⟨hf, h⟩
  · subst h
    simp [csvStep, endField, emitRow, string_mk_data]
  · subst h
    simp [csvStep, endField, emitRow, string_mk_data]
  · subst h
    subst hf
    simp [csvStep, csvStartField, endField, emitRow]

theorem csv_tail_fold (fs : List String) :
    ∀ (d : List (List String)) (r : List String) (f : String) (s : RState),
    (AfterField d r f s ∨
      (fs ≠ [] ∧ f = "" ∧ r = [] ∧ s = ⟨d, [], [], .startRecord⟩)) →
    List.foldl csvStep s
        ((fs.flatMap (fun g => ',' :: encodeField false g.data)) ++ ['\r', '\n']) =
      ⟨d ++ [(r ++ [f]) ++ fs], [], [], .startRecord⟩ := by
  induction fs with
  | nil =>
    intro d r f s h
    rcases h with h | ⟨hne, _⟩
    · simpa using csv_term_fold d r f s h
    · exact absurd rfl hne
  | cons g gs ih =>
    intro d r f s h
    have hsep : csvStep s ',' = ⟨d, r ++ [f], [], .startField⟩ := by
      rcases h with h | ⟨_, hf, hr, hs⟩
      · exact csv_sep_fold d r f s h
      · subst hs
        subst hf
        subst hr
        exact csv_startRecord_sep d
    have hlist : ((g :: gs).flatMap (fun x => ',' :: encodeField false x.data)) ++
          ['\r', '\n'] =
        ',' :: (encodeField false g.data ++
          ((gs.flatMap (fun x => ',' :: encodeField false x.data)) ++ ['\r', '\n'])) := by
      simp
    rw [hlist, List.foldl_cons, hsep, List.foldl_append]
    have h2 := csv_field_fold g.data false d (r ++ [f])
    rw [string_mk_data] at h2
    rw [ih d (r ++ [f]) g _ (Or.inl h2)]
    simp

theorem csv_row_fold (row : List String) (d : List (List String)) :
    List.foldl csvStep ⟨d, [], [], .startRecord⟩ (encodeRow row) =
      ⟨d ++ [row], [], [], .startRecord⟩ := by
  cases row with
  | nil =>
    simp only [encodeRow, List.foldl_cons, List.foldl_nil]
    simp [csvStep, emitRow]
  | cons f fs =>
    simp only [encodeRow]
    rw [List.foldl_append]
    rcases csv_field_fold_start f.data fs.isEmpty d with h | ⟨hnil, hq, heq⟩
    · rw [string_mk_data] at h
      rw [csv_tail_fold fs d [] f _ (Or.inl h)]
      simp
    · have hfs : fs ≠ [] := by
        intro hfse
        subst hfse
        rw [hnil] at hq
        simp [needsQuote] at hq
      have hf : f = "" := by
        rw [← string_mk_data f, hnil]
      rw [heq]
      rw [csv_tail_fold fs d [] "" _ (Or.inr ⟨hfs, rfl, rfl, rfl⟩)]
      simp [hf]

theorem csv_rows_fold (rows : List (List String)) :
    ∀ d, List.foldl csvStep ⟨d, [], [], .startRecord⟩ (writeRows rows) =
      ⟨d ++ rows, [], [], .startRecord⟩ := by
  induction rows with
  | nil =>
    intro d
    simp [writeRows]
  | cons row rest ih =>
    intro d
    have hw : writeRows (row :: rest) = encodeRow row ++ writeRows rest := by
      simp [writeRows]
    rw [hw, List.foldl_append, csv_row_fold, ih]
    simp

/-- C8: re-reading the writer's output with the `csv` reader yields the
original rows, in order, with no header row. -/
theorem csv_round_trip (rows : List (List String)) :
    readRows (writeRows rows) = rows := by
  unfold readRows
  rw [csv_rows_fold rows []]
  simp [csvFinish]

/-- Witness for `state_rows_shape` at the Alabama fixture. -/
theorem state_rows_shape_witness :
    get_state_prices envOk [alRow] =
      Except.ok [["AL", "Alabama", "Autauga", "3.1"]] ∧
    ∃ blocks : List (List (List String)),
      [["AL", "Alabama", "Autauga", "3.1"]] = blocks.flatten ∧
      List.Forall₂ (fun (row : List String) (block : List (List String)) =>
        ∀ r ∈ block, r.length = 4 ∧ r.take 2 = row.take 2) [alRow] blocks :=
  ⟨rfl, state_rows_shape envOk [alRow] [["AL", "Alabama", "Autauga", "3.1"]] rfl⟩
